import Mathlib

/-!
Shallow embedding of the timetable slot-assignment engine of `src/app.py`
(`validate_timetable_row`, `check_faculty_gap`,
`check_faculty_schedule_conflict`, `auto_assign_timeslots`, and the manual
conflict sweep inside `create_timetable_page`), together with theorems that
settle the frozen claims about it.

Conventions of the embedding:
* Python strings are Lean `String`s; `"Day HH:MM"` stamps are kept as strings
  and parsed exactly where the Python code parses them.
* Python `int` values obtained from strings are Lean `Int`s; `int(...)` is the
  partial function `pyInt?` and a parse failure propagates like the Python
  exception of the surrounding `try` block.
* Python randomness (`random.sample`, `random.choice`, `random.choices`) is
  made explicit: an oracle `List Nat` supplies one number per draw (default 0
  once exhausted), and each draw picks an index modulo the population size, so
  quantifying over the oracle quantifies over every possible random outcome.
* `st.warning` / `st.error` side effects are collected into result lists.
-/

namespace TTG

/-! ## Small Python-like utilities -/

/-- Splitting of a character list at every occurrence of `c`
(Python `str.split(sep)` semantics: `"" ↦ [""]`, separators kept empty). -/
def splitChar (c : Char) : List Char → List (List Char)
  | [] => [[]]
  | a :: as =>
    let r := splitChar c as
    if a = c then [] :: r
    else
      match r with
      | [] => [[a]]
      | g :: gs => (a :: g) :: gs

/-- Python `s.split(sep)` for a one-character separator. -/
def pySplit (c : Char) (s : String) : List String :=
  (splitChar c s.data).map String.mk

/-- Python tuple unpacking `a, b = s.split()` for a well-formed two-part
split; `none` models the raised `ValueError` when the part count is not 2. -/
def pySplit2 (s : String) : Option (String × String) :=
  match pySplit ' ' s with
  | [a, b] => some (a, b)
  | _ => none

/-- Value of a decimal digit character. -/
def digitVal? (c : Char) : Option Nat :=
  if c.isDigit then some (c.toNat - 48) else none

/-- Accumulating decimal parse of a character list. -/
def digitsValGo : List Char → Nat → Option Nat
  | [], acc => some acc
  | c :: cs, acc =>
    match digitVal? c with
    | none => none
    | some d => digitsValGo cs (acc * 10 + d)

/-- Python `int(s)` on a non-negative decimal string. -/
def pyNat? (s : String) : Option Nat :=
  match s.data with
  | [] => none
  | l => digitsValGo l 0

/-- Python `int(s)`, allowing a leading minus sign; `none` models the raised
`ValueError` on malformed input. -/
def pyInt? (s : String) : Option Int :=
  match s.data with
  | '-' :: rest =>
    match rest with
    | [] => none
    | l => (digitsValGo l 0).map (fun n => -(n : Int))
  | _ => (pyNat? s).map (fun n => (n : Int))

/-- Digits of `n`, most significant first, with explicit fuel. -/
def natStrGo : Nat → Nat → List Char
  | 0, _ => []
  | fuel + 1, n =>
    if n < 10 then [Char.ofNat (48 + n)]
    else natStrGo fuel (n / 10) ++ [Char.ofNat (48 + n % 10)]

/-- Decimal rendering of a natural number (Python `str(n)` for `n ≥ 0`). -/
def natStr (n : Nat) : String := ⟨natStrGo (n + 1) n⟩

/-- Decimal rendering of an integer (Python `str(i)`). -/
def intStr (i : Int) : String :=
  if i < 0 then "-" ++ natStr i.natAbs else natStr i.natAbs

/-- Python `f"{i:02d}"`: width-2 zero-padded decimal rendering. -/
def fmt2 (i : Int) : String :=
  if 0 ≤ i ∧ i < 10 then "0" ++ natStr i.natAbs else intStr i

/-- Lexicographic strict comparison of character lists by code point,
mirroring Python string `<`. -/
def lexLtChars : List Char → List Char → Bool
  | [], [] => false
  | [], _ :: _ => true
  | _ :: _, [] => false
  | a :: as, b :: bs =>
    if a.toNat < b.toNat then true
    else if b.toNat < a.toNat then false
    else lexLtChars as bs

/-- Python string comparison `a >= b`. -/
def pyStrGe (a b : String) : Bool := !(lexLtChars a.data b.data)

/-- Boolean list membership used for the Python `in` tests on dict keys. -/
def memB (x : String) : List String → Bool
  | [] => false
  | y :: ys => x == y || memB x ys

/-- Python `min` over a list of naturals (total here; every call site has a
non-empty list of the five per-day counters). -/
def minList : List Nat → Nat
  | [] => 0
  | x :: xs => xs.foldl Nat.min x

/-- Python `max` over a generator; the empty case models the raised
`ValueError: max() arg is an empty sequence`. -/
def pymax : List Nat → Except String Nat
  | [] => .error "max() arg is an empty sequence"
  | x :: xs => .ok (xs.foldl Nat.max x)

/-- Stable insertion into a list sorted ascending by `key`. -/
def insertByKey (key : α → Nat) (x : α) : List α → List α
  | [] => [x]
  | y :: ys => if key x ≤ key y then x :: y :: ys else y :: insertByKey key x ys

/-- Stable ascending sort by `key`, mirroring Python `sorted(..., key=...)`. -/
def sortByKey (key : α → Nat) (xs : List α) : List α :=
  xs.foldr (insertByKey key) []

/-- Helper for `intRange`: the `n` integers counting up from `a`. -/
def intRangeGo (a : Int) : Nat → List Int
  | 0 => []
  | n + 1 => a :: intRangeGo (a + 1) n

/-- Python `range(a, b)` over integers. -/
def intRange (a b : Int) : List Int :=
  intRangeGo a (b - a).toNat

/-! ## Explicit randomness -/

/-- One draw from the oracle; 0 once the oracle list is exhausted. -/
def randNat : List Nat → Nat × List Nat
  | [] => (0, [])
  | n :: rest => (n, rest)

/-- Removal of the element at position `n % length` from a list. -/
def popIdx (xs : List α) (n : Nat) : Option (α × List α) :=
  match xs.get? (n % xs.length) with
  | none => none
  | some x => some (x, xs.take (n % xs.length) ++ xs.drop (n % xs.length + 1))

/-- Python `random.sample(xs, k)`: `k` draws without replacement, each chosen
by one oracle number. The `none` fallback is unreachable at every call site
because the code only samples with `k ≤ len(xs)`. -/
def randSample (xs : List α) : Nat → List Nat → List α × List Nat
  | 0, rng => ([], rng)
  | k + 1, rng =>
    match popIdx xs (randNat rng).1 with
    | none => ([], (randNat rng).2)
    | some q =>
      let r := randSample q.2 k (randNat rng).2
      (q.1 :: r.1, r.2)

/-- Python `random.choice(xs)` for non-empty `xs` (the default is unreachable
then, since the index is taken modulo the length). -/
def randChoice (xs : List α) (dflt : α) (rng : List Nat) : α × List Nat :=
  let p := randNat rng
  (xs.getD (p.1 % xs.length) dflt, p.2)

/-- Python `random.choices(xs, k=k)`: `k` independent draws with replacement. -/
def randChoices (xs : List α) (dflt : α) : Nat → List Nat → List α × List Nat
  | 0, rng => ([], rng)
  | k + 1, rng =>
    let r := randChoices xs dflt k (randChoice xs dflt rng).2
    ((randChoice xs dflt rng).1 :: r.1, r.2)

/-! ## Data model (`src/app.py` dict shapes) -/

/-- One slot of an in-memory schedule, exactly the dict appended by
`auto_assign_timeslots` and by the manual path (`src/app.py:453`, `815`). -/
structure Slot where
  day : String
  start_time : String
  end_time : String
  faculty_id : String
  subject_id : String
  room : String
  tenure : Nat
deriving DecidableEq, Repr

/-- One persisted `Timetables` row as consumed by
`check_faculty_schedule_conflict` (columns `Faculty ID`, `Subject ID`,
`Start Time`, `End Time`). -/
structure HistRow where
  facultyId : String
  subjectId : String
  startTime : String
  endTime : String
deriving DecidableEq, Repr

/-- One scheduling request (`faculty_assignments` entry): faculty, subject,
classes per week, duration per class, optional pre-assigned room. -/
structure Assignment where
  faculty_id : String
  subject_id : String
  num_classes : Nat
  tenure : Nat
  room : Option String
deriving DecidableEq, Repr

/-- One `Timetables` row as seen by `validate_timetable_row`; the empty
string models a missing (falsy) cell, as produced by `get_all_records`. -/
structure TRow where
  timetableId : String
  departmentId : String
  subjectId : String
  startTime : String
  endTime : String
deriving DecidableEq, Repr

/-- Weekday list of the engine (`src/app.py:368`). -/
def days : List String := ["Monday", "Tuesday", "Wednesday", "Thursday", "Friday"]

/-- Permissible start times (`src/app.py:369`). -/
def base_time_slots : List String :=
  ["10:00", "11:00", "12:00", "14:00", "15:00", "16:00", "17:00"]

/-- Python `int(t.split(":")[0])` for a clock string like `"10:00"`. -/
def hourOfHM? (t : String) : Option Int :=
  pyInt? ((pySplit ':' t).getD 0 "")

/-- Python `int(s.split(" ")[1].split(":")[0])` for a stamp like
`"Monday 10:00"`; `none` models the `IndexError`/`ValueError` paths. -/
def hourOfDT? (s : String) : Option Int :=
  match (pySplit ' ' s).get? 1 with
  | none => none
  | some t => hourOfHM? t

/-! ## Row validator (`validate_timetable_row`, `src/app.py:83`) -/

/-- Match of the regex `^(Monday|...|Friday) \d\d:\d\d$` used on the two
time stamps of a row. -/
def timePatternOk (s : String) : Bool :=
  match pySplit ' ' s with
  | [d, t] =>
    memB d days &&
      (match pySplit ':' t with
       | [h, m] =>
         h.data.length == 2 && m.data.length == 2 &&
           h.data.all Char.isDigit && m.data.all Char.isDigit
       | _ => false)
  | _ => false

/-- The start-time whitelist of the validator (`src/app.py:101`). -/
def valid_times : List String :=
  ["10:00", "11:00", "12:00", "14:00", "15:00", "16:00", "17:00"]

/-- Embedding of `validate_timetable_row` (`src/app.py:83`): result flag and
reason string. The `assign_missing_id` branch only synthesizes a UUID as a
side effect and never changes the returned flag or reason, so it is not
modelled; the missing-fields reason is abbreviated (the Python message
interpolates the list of missing column names), which no claim depends on. -/
def validate_timetable_row (row : TRow) : Bool × String :=
  if row.departmentId == "" || row.subjectId == "" || row.startTime == "" ||
      row.endTime == "" then
    (false, "Missing required fields")
  else if !(timePatternOk row.startTime && timePatternOk row.endTime) then
    (false, "Invalid time format")
  else
    match pySplit ' ' row.startTime, pySplit ' ' row.endTime with
    | [sd, stm], [ed, etm] =>
      if sd ≠ ed then (false, "Start and end times must be on the same day")
      else
        let start_hour := (hourOfHM? stm).getD 0
        let end_hour := (hourOfHM? etm).getD 0
        let tenure := end_hour - start_hour
        if !(memB stm valid_times) || tenure ≤ 0 || end_hour > 18 || tenure > 3 then
          (false, "Invalid or out-of-range time")
        else (true, "")
    | _, _ => (false, "Invalid time format")

/-! ## Gap rule (`check_faculty_gap`, `src/app.py:318`) -/

/-- Comparison of a string against an optional string, mirroring
`if opt and s == opt`. -/
def optEq (s : String) : Option String → Bool
  | none => false
  | some p => s == p

/-- Loop body of `check_faculty_gap` over the in-progress schedule. A parse
failure returns `false` exactly like the surrounding `except` branch. -/
def gapLoop (fid day : String) (prev_hour next_hour : Option String)
    (start_hour : Int) (tenure : Nat) : List Slot → Bool
  | [] => true
  | s :: rest =>
    if s.faculty_id == fid && s.day == day then
      match hourOfDT? s.start_time, hourOfDT? s.end_time with
      | some ssh, some seh =>
        let slot_tenure := seh - ssh
        if optEq s.start_time prev_hour then false
        else if optEq s.start_time next_hour then false
        else if slot_tenure > 1 &&
            (intRange ssh (ssh + slot_tenure)).any
              (fun hh => hh == start_hour || hh == start_hour + (tenure : Int)) then
          false
        else gapLoop fid day prev_hour next_hour start_hour tenure rest
      | _, _ => false
    else gapLoop fid day prev_hour next_hour start_hour tenure rest

/-- Embedding of `check_faculty_gap` (`src/app.py:318`): `true` means the
candidate passes the adjacency rule. -/
def check_faculty_gap (schedule : List Slot) (faculty_id day start_time : String)
    (tenure : Nat) : Bool :=
  if tenure ≥ 2 then true
  else
    match hourOfDT? start_time with
    | none => false
    | some start_hour =>
      let prev_hour :=
        if start_hour > 10 then some (day ++ " " ++ fmt2 (start_hour - 1) ++ ":00")
        else none
      let next_hour :=
        if start_hour + (tenure : Int) < 17 then
          some (day ++ " " ++ fmt2 (start_hour + (tenure : Int)) ++ ":00")
        else none
      gapLoop faculty_id day prev_hour next_hour start_hour tenure schedule

/-! ## Cross-semester conflicts (`check_faculty_schedule_conflict`,
`src/app.py:344`) -/

/-- Reason string of the `except` branch of
`check_faculty_schedule_conflict` (the Python message appends the exception
text, which no claim depends on). -/
def cfscErr : String := "Error checking faculty schedule"

/-- Loop of `check_faculty_schedule_conflict` over the faculty-filtered
history rows. -/
def cfscLoop (fid start_day : String) (start_hour end_hour : Int) :
    List HistRow → Bool × String
  | [] => (true, "")
  | r :: rest =>
    match pySplit2 r.startTime with
    | none => (false, cfscErr)
    | some p =>
      match (pySplit ' ' r.endTime).get? 1 with
      | none => (false, cfscErr)
      | some ret =>
        if p.1 == start_day then
          match pyInt? ((pySplit ':' p.2).getD 0 ""),
              pyInt? ((pySplit ':' ret).getD 0 "") with
          | some rsh, some reh =>
            if start_hour < reh && end_hour > rsh then
              (false,
                "Faculty " ++ fid ++ " already scheduled at " ++ r.startTime ++
                  " to " ++ r.endTime ++ " for Subject " ++ r.subjectId)
            else cfscLoop fid start_day start_hour end_hour rest
          | _, _ => (false, cfscErr)
        else cfscLoop fid start_day start_hour end_hour rest

/-- Embedding of `check_faculty_schedule_conflict` (`src/app.py:344`):
`(true, "")` means no conflict against the persisted history. -/
def check_faculty_schedule_conflict (timetables_df : List HistRow)
    (faculty_id start_time : String) (tenure : Nat) : Bool × String :=
  if timetables_df = [] then (true, "")
  else
    match pySplit2 start_time with
    | none => (false, cfscErr)
    | some p =>
      match pyInt? ((pySplit ':' p.2).getD 0 "") with
      | none => (false, cfscErr)
      | some start_hour =>
        cfscLoop faculty_id p.1 start_hour (start_hour + (tenure : Int))
          (timetables_df.filter (fun r => r.facultyId == faculty_id))

/-! ## Automatic engine (`auto_assign_timeslots`, `src/app.py:366`) -/

/-- Candidate start-time list after the Friday-afternoon filter
(`src/app.py:369`). The dead conjunct `"Friday" in days` of the Python
comprehension is always true, so the filter strips every slot `≥ "15:00"`
for every day. -/
def engineTimeSlots (avoid_friday_afternoon : Bool) : List String :=
  if avoid_friday_afternoon then
    base_time_slots.filter (fun t => !(pyStrGe t "15:00" && memB "Friday" days))
  else base_time_slots

/-- The up-front capacity warning text (`src/app.py:381`). -/
def capacityMsg : String :=
  "Insufficient time slots or rooms for all classes. Consider adding more rooms or reducing classes."

/-- Session state threaded through the engine loops: the growing schedule,
the `used_slots` and `faculty_slots` key sets, the room-utilization and
per-faculty per-day counters, the randomness oracle, and the collected
`st.warning` texts plus the per-assignment `failures` list and
`classes_assigned` counter. -/
structure EngSt where
  schedule : List Slot
  used_slots : List String
  faculty_slots : List String
  room_usage : List (String × Nat)
  day_usage : List ((String × String) × Nat)
  rng : List Nat
  warnings : List String
  failures : List String
  classes_assigned : Nat

/-- Per-assignment context of the engine loops. -/
structure EngCtx where
  time_slots : List String
  hist : List HistRow
  max_attempts : Nat
  faculty_id : String
  subject_id : String
  tenure : Nat
  num_classes : Nat
  pre_room : Option String

/-- The `room_usage` dict: insertion-ordered, duplicate-free keys with a zero
counter (`src/app.py:375`). -/
def initRoomUsage (rooms : List String) : List (String × Nat) :=
  rooms.foldl
    (fun acc r => if acc.any (fun p => p.1 == r) then acc else acc ++ [(r, 0)]) []

/-- Lookup in `room_usage` (default irrelevant: keys are always present). -/
def lookupUsage (ru : List (String × Nat)) (r : String) : Nat :=
  ((ru.find? (fun p => p.1 == r)).map Prod.snd).getD 0

/-- `room_usage[room] += tenure` (`src/app.py:464`). -/
def bumpUsage (ru : List (String × Nat)) (r : String) (k : Nat) : List (String × Nat) :=
  ru.map (fun p => if p.1 == r then (p.1, p.2 + k) else p)

/-- Lookup in `day_usage`, defaulting to the initial zero counter. -/
def lookupDU (du : List ((String × String) × Nat)) (f d : String) : Nat :=
  ((du.find? (fun p => p.1.1 == f && p.1.2 == d)).map Prod.snd).getD 0

/-- `day_usage[faculty_id][day] += 1` (`src/app.py:465`). -/
def bumpDU (du : List ((String × String) × Nat)) (f d : String) :
    List ((String × String) × Nat) :=
  if du.any (fun p => p.1.1 == f && p.1.2 == d) then
    du.map (fun p => if p.1.1 == f && p.1.2 == d then (p.1, p.2 + 1) else p)
  else du ++ [((f, d), 1)]

/-- `min(day_usage[faculty_id].values())` over the five weekday counters. -/
def minDU (du : List ((String × String) × Nat)) (f : String) : Nat :=
  minList (days.map (lookupDU du f))

/-- Room selection of `src/app.py:435`: first key of the usage-sorted room
list whose `room_day_time` key is still free. -/
def pickRoom (used : List String) (slot_key : String) : List String → Option String
  | [] => none
  | r :: rest =>
    if memB (r ++ "_" ++ slot_key) used then pickRoom used slot_key rest
    else some r

/-- One candidate hour of the inner time loop (`src/app.py:409`–`467`).
Returns the updated state and whether the candidate was committed. -/
def tryTime (ctx : EngCtx) (day time : String) (st : EngSt) : EngSt × Bool :=
  let start_hour := (hourOfHM? time).getD 0
  if start_hour + (ctx.tenure : Int) > 18 ||
      (start_hour + (ctx.tenure : Int) > 13 && start_hour < 13) then
    ({ st with failures := st.failures ++
        ["Time " ++ time ++ " on " ++ day ++ " exceeds 18:00 or crosses lunch"] },
      false)
  else
    let slot_key := day ++ "_" ++ time
    let faculty_key := ctx.faculty_id ++ "_" ++ slot_key
    if memB faculty_key st.faculty_slots then
      ({ st with failures := st.failures ++
          ["Faculty " ++ ctx.faculty_id ++ " already scheduled at " ++ time ++
            " on " ++ day ++ " in this timetable"] },
        false)
    else
      let start_time := day ++ " " ++ time
      let fc := check_faculty_schedule_conflict ctx.hist ctx.faculty_id start_time ctx.tenure
      if !fc.1 then
        ({ st with failures := st.failures ++ [fc.2] }, false)
      else if ctx.tenure == 1 &&
          !(check_faculty_gap st.schedule ctx.faculty_id day start_time ctx.tenure) then
        ({ st with failures := st.failures ++
            ["Faculty " ++ ctx.faculty_id ++ " has no gap at " ++ time ++ " on " ++ day] },
          false)
      else
        let room? :=
          match ctx.pre_room with
          | some r => some r
          | none =>
            pickRoom st.used_slots slot_key
              (sortByKey (lookupUsage st.room_usage) (st.room_usage.map Prod.fst))
        match room? with
        | none =>
          ({ st with failures := st.failures ++
              ["No available rooms at " ++ time ++ " on " ++ day] },
            false)
        | some room =>
          let room_key := room ++ "_" ++ slot_key
          if memB room_key st.used_slots then
            ({ st with failures := st.failures ++
                ["Room " ++ room ++ " booked at " ++ time ++ " on " ++ day] },
              false)
          else
            let end_hour := (start_hour + (ctx.tenure : Int)) % 24
            let end_time := day ++ " " ++ fmt2 end_hour ++ ":00"
            let slot : Slot :=
              ⟨day, start_time, end_time, ctx.faculty_id, ctx.subject_id, room, ctx.tenure⟩
            ({ st with
                schedule := st.schedule ++ [slot],
                used_slots := st.used_slots ++ [room_key],
                faculty_slots := st.faculty_slots ++ [faculty_key],
                room_usage := bumpUsage st.room_usage room ctx.tenure,
                day_usage := bumpDU st.day_usage ctx.faculty_id day,
                classes_assigned := st.classes_assigned + 1 },
              true)

/-- The shuffled-times loop (`for time in shuffled_times`), breaking on the
first committed candidate. -/
def timeLoop (ctx : EngCtx) (day : String) : List String → EngSt → EngSt
  | [], st => st
  | time :: rest, st =>
    let r := tryTime ctx day time st
    if r.2 then r.1 else timeLoop ctx day rest r.1

/-- The bounded attempt loop (`for _ in range(max_attempts)`,
`src/app.py:404`–`478`): shuffle the candidate hours, try them, and on
failure re-pick a least-loaded day for the faculty. -/
def attemptLoop (ctx : EngCtx) (class_idx : Nat) : Nat → String → EngSt → EngSt
  | 0, _, st => st
  | fuel + 1, day, st =>
    if st.classes_assigned ≥ ctx.num_classes then st
    else
      let sh := randSample ctx.time_slots ctx.time_slots.length st.rng
      let st1 := timeLoop ctx day sh.1 { st with rng := sh.2 }
      if st1.classes_assigned > class_idx then st1
      else
        let avail := days.filter
          (fun d => lookupDU st1.day_usage ctx.faculty_id d == minDU st1.day_usage ctx.faculty_id)
        if avail = [] then
          { st1 with failures := st1.failures ++
              ["No available days for " ++ ctx.subject_id ++ " class " ++
                natStr (class_idx + 1)] }
        else
          let c := randChoice avail "" st1.rng
          attemptLoop ctx class_idx fuel c.1 { st1 with rng := c.2 }

/-- The per-class loop (`for class_idx in range(num_classes)`,
`src/app.py:402`–`484`), with the break on a class that could not be
placed. `rem` is the number of classes still to process. -/
def classLoop (ctx : EngCtx) (selected_days : List String) :
    Nat → Nat → EngSt → EngSt
  | 0, _, st => st
  | rem + 1, class_idx, st =>
    let day := selected_days.getD class_idx ""
    let st1 := attemptLoop ctx class_idx ctx.max_attempts day st
    if st1.classes_assigned > class_idx then
      classLoop ctx selected_days rem (class_idx + 1) st1
    else
      { st1 with failures := st1.failures ++
          ["Failed to assign class " ++ natStr (class_idx + 1) ++ " for " ++
            ctx.subject_id ++ " after " ++ natStr ctx.max_attempts ++ " attempts"] }

/-- The weekday pool of `src/app.py:393`–`395`: with
`avoid_friday_afternoon`, Friday is dropped only when some remaining start
time is `≥ "15:00"` (never, since those were already filtered out). -/
def availableDays (avoid : Bool) (time_slots : List String) : List String :=
  if avoid then
    days.filter (fun d => !(d == "Friday") || !(time_slots.any (fun t => pyStrGe t "15:00")))
  else days

/-- Day selection of `src/app.py:396`–`400`: sample distinct days, padding
with replacement (plus a warning) when the classes outnumber the days. -/
def selectDays (available_days : List String) (num_classes : Nat)
    (subject_id : String) (st : EngSt) : List String × EngSt :=
  if available_days.length < num_classes then
    let st1 := { st with warnings := st.warnings ++
        ["Not enough days to distribute " ++ natStr num_classes ++
          " classes for " ++ subject_id ++ ". Some days may be reused."] }
    let s1 := randSample available_days available_days.length st1.rng
    let s2 := randChoices available_days "" (num_classes - available_days.length) s1.2
    (s1.1 ++ s2.1, { st1 with rng := s2.2 })
  else
    let s1 := randSample available_days num_classes st.rng
    (s1.1, { st with rng := s1.2 })

/-- One assignment of the outer loop (`src/app.py:383`–`487`): reset the
per-assignment counters, pick the distinct days, run the class loop, and
emit the could-not-schedule warning when classes remain. -/
def processAssignment (time_slots : List String) (hist : List HistRow)
    (avoid : Bool) (max_attempts : Nat) (st : EngSt) (a : Assignment) : EngSt :=
  let ctx : EngCtx :=
    ⟨time_slots, hist, max_attempts, a.faculty_id, a.subject_id, a.tenure,
      a.num_classes, a.room⟩
  let sel := selectDays (availableDays avoid time_slots) a.num_classes a.subject_id
    { st with classes_assigned := 0, failures := [] }
  let st2 := classLoop ctx sel.1 a.num_classes 0 sel.2
  if st2.classes_assigned < a.num_classes then
    { st2 with warnings := st2.warnings ++
        ["Could not schedule " ++ natStr (a.num_classes - st2.classes_assigned) ++
          " classes for " ++ a.subject_id ++ " (Faculty: " ++ a.faculty_id ++ ")"] }
  else st2

/-- The up-front capacity check of `src/app.py:378`–`381`: warn when
`total_classes * max_tenure` exceeds `days × time_slots × rooms`. -/
def engineWarns (faculty_assignments : List Assignment) (dept_rooms : List String)
    (time_slots : List String) (max_tenure : Nat) : List String :=
  if (faculty_assignments.map Assignment.num_classes).sum * max_tenure >
      days.length * time_slots.length * dept_rooms.length then
    [capacityMsg]
  else []

/-- The main loop of `auto_assign_timeslots` from its initial session state,
given the already-computed `max_tenure`. -/
def engineRun (faculty_assignments : List Assignment) (dept_rooms : List String)
    (timetables_df : List HistRow) (avoid_friday_afternoon : Bool)
    (max_attempts : Nat) (rng : List Nat) (max_tenure : Nat) : EngSt :=
  faculty_assignments.foldl
    (processAssignment (engineTimeSlots avoid_friday_afternoon) timetables_df
      avoid_friday_afternoon max_attempts)
    ⟨[], [], [], initRoomUsage dept_rooms, [], rng,
      engineWarns faculty_assignments dept_rooms
        (engineTimeSlots avoid_friday_afternoon) max_tenure,
      [], 0⟩

/-- Embedding of `auto_assign_timeslots` (`src/app.py:366`). The unused
`department_id` parameter of the Python signature is dropped. The result is
the returned schedule together with the collected warnings; the `error` case
models the uncaught `ValueError` that `max()` raises on an empty assignment
list (`src/app.py:380`). -/
def auto_assign_timeslots (faculty_assignments : List Assignment)
    (dept_rooms : List String) (timetables_df : List HistRow)
    (avoid_friday_afternoon : Bool) (max_attempts : Nat) (rng : List Nat) :
    Except String (List Slot × List String) :=
  match pymax (faculty_assignments.map Assignment.tenure) with
  | .error e => .error e
  | .ok max_tenure =>
    .ok ((engineRun faculty_assignments dept_rooms timetables_df
        avoid_friday_afternoon max_attempts rng max_tenure).schedule,
      (engineRun faculty_assignments dept_rooms timetables_df
        avoid_friday_afternoon max_attempts rng max_tenure).warnings)

/-- Schedule component of an engine result (empty on the exception path). -/
def schedOf (r : Except String (List Slot × List String)) : List Slot :=
  match r with
  | .ok p => p.1
  | .error _ => []

/-- Warning component of an engine result. -/
def warnsOf (r : Except String (List Slot × List String)) : List String :=
  match r with
  | .ok p => p.2
  | .error _ => []

/-! ## Manual conflict sweep (`create_timetable_page`, `src/app.py:840`) -/

/-- Dict-key insertion: append if the key is not yet present. -/
def addKey (k : String) (l : List String) : List String :=
  if memB k l then l else l ++ [k]

/-- All ordered pairs of distinct positions of a list (the Python double
loop `for i ... for j ... if i != j`). -/
def allPairsNe (l : List α) : List (α × α) :=
  (l.enum.map
    (fun p => l.enum.filterMap
      (fun q => if p.1 ≠ q.1 then some (p.2, q.2) else none))).flatten

/-- Room- and faculty-conflict keys of the manual sweep
(`src/app.py:846`–`852`): pairs sharing the exact start stamp. -/
def manualRoomFacConflicts (schedule : List Slot) : List String × List String :=
  (allPairsNe schedule).foldl
    (fun acc pq =>
      if pq.1.start_time == pq.2.start_time then
        let acc1 :=
          if pq.1.room == pq.2.room then
            (addKey (pq.1.room ++ " at " ++ pq.1.start_time) acc.1, acc.2)
          else acc
        if pq.1.faculty_id == pq.2.faculty_id then
          (acc1.1, addKey (pq.1.faculty_id ++ " at " ++ pq.1.start_time) acc1.2)
        else acc1
      else acc)
    ([], [])

/-- Gap-violation keys of the manual sweep (`src/app.py:854`–`860`); `none`
models the uncaught parse exception on a malformed stamp. -/
def manualGapIssues (schedule : List Slot) : Option (List String) :=
  (allPairsNe schedule).foldl
    (fun acc pq =>
      match acc with
      | none => none
      | some keys =>
        if pq.1.faculty_id == pq.2.faculty_id && pq.1.day == pq.2.day &&
            pq.1.tenure == 1 && pq.2.tenure == 1 then
          match hourOfDT? pq.1.start_time, hourOfDT? pq.2.start_time with
          | some ti, some tj =>
            if (ti - tj).natAbs == 1 then
              some (addKey (pq.1.faculty_id ++ " on " ++ pq.1.day ++ " at " ++
                intStr ti ++ ":00 and " ++ intStr tj ++ ":00") keys)
            else some keys
          | _, _ => none
        else some keys)
    (some [])

/-- The whole manual conflict sweep: distinct room-conflict, faculty-conflict
and gap-violation descriptions, in dict insertion order. -/
def manual_conflict_sweep (schedule : List Slot) :
    Option (List String × List String × List String) :=
  match manualGapIssues schedule with
  | none => none
  | some gaps =>
    some ((manualRoomFacConflicts schedule).1, (manualRoomFacConflicts schedule).2, gaps)

/-! ## Claim-level predicates -/

/-- Parsed start hour of a slot (0 on a malformed stamp). -/
def slotStartHourD (s : Slot) : Int := (hourOfDT? s.start_time).getD 0

/-- Parsed end hour of a slot (0 on a malformed stamp). -/
def slotEndHourD (s : Slot) : Int := (hourOfDT? s.end_time).getD 0

/-- Executable pairwise test over a list. -/
def pairwiseB (r : α → α → Bool) : List α → Bool
  | [] => true
  | x :: xs => xs.all (r x) && pairwiseB r xs

/-- No two slots share faculty id, day and an overlapping `[start, end)`
interval (the property claimed by C1). -/
def facOverlapFreeB (sched : List Slot) : Bool :=
  pairwiseB
    (fun a b => !(a.faculty_id == b.faculty_id && a.day == b.day &&
      decide (slotStartHourD a < slotEndHourD b) &&
      decide (slotStartHourD b < slotEndHourD a)))
    sched

/-- No two slots share room name, day and an overlapping `[start, end)`
interval (the consequence claimed by C2). -/
def roomOverlapFreeB (sched : List Slot) : Bool :=
  pairwiseB
    (fun a b => !(a.room == b.room && a.day == b.day &&
      decide (slotStartHourD a < slotEndHourD b) &&
      decide (slotStartHourD b < slotEndHourD a)))
    sched

/-- No two slots share faculty id, day and the exact start stamp. -/
def facExactFreeB (sched : List Slot) : Bool :=
  pairwiseB
    (fun a b => !(a.faculty_id == b.faculty_id && a.day == b.day &&
      a.start_time == b.start_time))
    sched

/-- No two slots share room name, day and the exact start stamp. -/
def roomExactFreeB (sched : List Slot) : Bool :=
  pairwiseB
    (fun a b => !(a.room == b.room && a.day == b.day &&
      a.start_time == b.start_time))
    sched

deriving instance DecidableEq for Except

/-- Rejection condition of the gap rule as the spec words it for C6: an
existing slot of the same faculty and day starting at `h−1` (when
`h−1 ≥ 10`) or at `h+1` (when `h+1 < 17`), or a multi-hour slot whose
interval boundary hours (start hour or end hour) equal `h−1` or `h+1`.
This definition follows the claim text, to be compared with
`check_faculty_gap`. -/
def gapSpecRejectsB (schedule : List Slot) (fid day : String) (h : Int) : Bool :=
  schedule.any fun s =>
    s.faculty_id == fid && s.day == day &&
      (let sh := slotStartHourD s
       let eh := slotEndHourD s
       (decide (h - 1 ≥ 10) && sh == h - 1) ||
       (decide (h + 1 < 17) && sh == h + 1) ||
       (decide (eh - sh ≥ 2) &&
         (sh == h - 1 || eh == h - 1 || sh == h + 1 || eh == h + 1)))

/-- Rejection condition actually implemented by `check_faculty_gap` for a
1-hour candidate at hour `h`: a same-faculty same-day slot starting at
`h−1` (when `h−1 ≥ 10`) or `h+1` (when `h+1 < 17`), or a multi-hour slot
whose occupied hours `[start, end)` contain `h` or `h+1`. -/
def gapCodeRejects (schedule : List Slot) (fid day : String) (h : Int) : Prop :=
  ∃ s ∈ schedule, s.faculty_id = fid ∧ s.day = day ∧
    ∃ sh eh : Int, hourOfDT? s.start_time = some sh ∧ hourOfDT? s.end_time = some eh ∧
      ((h - 1 ≥ 10 ∧ sh = h - 1) ∨
       (h + 1 < 17 ∧ sh = h + 1) ∨
       (eh - sh ≥ 2 ∧ (sh ≤ h ∧ h < eh ∨ sh ≤ h + 1 ∧ h + 1 < eh)))

/-- Well-formed times of a slot relative to a given day: both stamps are the
canonical `<day> HH:00` strings for hours below 24 (the only shape the
application ever writes). -/
def WFT (day : String) (s : Slot) : Prop :=
  ∃ sh eh : Nat, sh < 24 ∧ eh < 24 ∧
    s.start_time = day ++ " " ++ fmt2 (sh : Int) ++ ":00" ∧
    s.end_time = day ++ " " ++ fmt2 (eh : Int) ++ ":00"

/-! ## Invariant vocabulary for the engine proofs -/

/-- Day strings a committed slot can carry: a sampled weekday, or the empty
default of an out-of-range list index (which cannot occur, but the invariant
does not need that). -/
def dayOpts : List String := "" :: days

/-- Facts the invariant needs about one candidate start time: it parses to an
hour `h` in the working range, distinct from the lunch hour, and prefixing any
day string from `dayOpts` parses back to the same hour. -/
def TF (t : String) : Prop :=
  ∃ h : Int, hourOfHM? t = some h ∧ 10 ≤ h ∧ h ≤ 17 ∧ h ≠ 13 ∧
    ∀ d ∈ dayOpts, hourOfDT? (d ++ " " ++ t) = some h

/-- Executable version of `TF`. -/
def TFB (t : String) : Bool :=
  match hourOfHM? t with
  | none => false
  | some h =>
    decide (10 ≤ h) && decide (h ≤ 17) && decide (h ≠ 13) &&
      dayOpts.all (fun d => hourOfDT? (d ++ " " ++ t) == some h)

/-- Membership of a parsed start hour in a given hour list. -/
def hourInB (l : List Int) (t : String) : Bool :=
  match hourOfHM? t with
  | none => false
  | some h => l.contains h

/-- Per-slot invariant of the session state: the slot was committed from a
candidate `time` of the engine list and hour `h`, its stamps parse back to
`h` and `h + tenure`, its interval respects the closing and lunch bounds,
and its room and faculty keys are registered in the key sets. -/
def SlotC (ts used fac : List String) (s : Slot) : Prop :=
  ∃ time h, time ∈ ts ∧ hourOfHM? time = some h ∧
    s.day ∈ dayOpts ∧
    s.start_time = s.day ++ " " ++ time ∧
    hourOfDT? s.start_time = some h ∧
    hourOfDT? s.end_time = some (h + (s.tenure : Int)) ∧
    h + (s.tenure : Int) ≤ 18 ∧ ¬(h < 13 ∧ 13 < h + (s.tenure : Int)) ∧
    (s.room ++ "_" ++ (s.day ++ "_" ++ time)) ∈ used ∧
    (s.faculty_id ++ "_" ++ (s.day ++ "_" ++ time)) ∈ fac

/-- Two slots differ in their room/day/start key and in their
faculty/day/start key. -/
def DistinctKeys (a b : Slot) : Prop :=
  ¬(a.room = b.room ∧ a.day = b.day ∧ a.start_time = b.start_time) ∧
  ¬(a.faculty_id = b.faculty_id ∧ a.day = b.day ∧ a.start_time = b.start_time)

/-- Session-state invariant maintained by every engine loop. -/
def Inv (ts : List String) (st : EngSt) : Prop :=
  (∀ s ∈ st.schedule, SlotC ts st.used_slots st.faculty_slots s) ∧
  st.schedule.Pairwise DistinctKeys

/-- Facts exported to the claim statements about one slot of a returned
schedule. -/
def SlotOut (ts : List String) (s : Slot) : Prop :=
  ∃ time h, time ∈ ts ∧ hourOfHM? time = some h ∧
    hourOfDT? s.start_time = some h ∧
    hourOfDT? s.end_time = some (h + (s.tenure : Int)) ∧
    h + (s.tenure : Int) ≤ 18 ∧ ¬(h < 13 ∧ 13 < h + (s.tenure : Int))

/-! ## Basic lemmas -/

theorem memB_iff (x : String) (l : List String) : memB x l = true ↔ x ∈ l := by
  induction l with
  | nil => simp [memB]
  | cons y ys ih => simp [memB, ih, beq_iff_eq]

theorem getD_mem_or (xs : List α) (i : Nat) (d : α) :
    xs.getD i d ∈ xs ∨ xs.getD i d = d := by
  induction xs generalizing i with
  | nil => right; simp [List.getD]
  | cons x xs ih =>
    cases i with
    | zero => left; simp [List.getD]
    | succ j =>
      rcases ih j with h | h
      · left; simp [List.getD] at h ⊢; right; simpa [List.getD] using h
      · right; simpa [List.getD] using h

theorem popIdx_mem {xs : List α} {n : Nat} {x : α} {rest : List α}
    (h : popIdx xs n = some (x, rest)) : x ∈ xs := by
  unfold popIdx at h
  cases hg : xs.get? (n % xs.length) with
  | none => rw [hg] at h; cases h
  | some y =>
    rw [hg] at h
    cases h
    exact List.get?_mem hg

theorem popIdx_subset {xs : List α} {n : Nat} {x : α} {rest : List α}
    (h : popIdx xs n = some (x, rest)) : ∀ y ∈ rest, y ∈ xs := by
  unfold popIdx at h
  cases hg : xs.get? (n % xs.length) with
  | none => rw [hg] at h; cases h
  | some z =>
    rw [hg] at h
    cases h
    intro y hy
    rcases List.mem_append.mp hy with h1 | h1
    · exact List.take_subset _ _ h1
    · exact List.drop_subset _ _ h1

theorem randSample_subset (xs : List α) (k : Nat) (rng : List Nat) :
    ∀ y ∈ (randSample xs k rng).1, y ∈ xs := by
  induction k generalizing xs rng with
  | zero => intro y hy; simp [randSample] at hy
  | succ k ih =>
    intro y hy
    unfold randSample at hy
    cases hp : popIdx xs (randNat rng).1 with
    | none => rw [hp] at hy; simp at hy
    | some q =>
      rw [hp] at hy
      simp at hy
      rcases hy with h | h
      · subst h; exact popIdx_mem hp
      · exact popIdx_subset hp _ (ih q.2 (randNat rng).2 _ h)

theorem randChoice_mem (xs : List α) (d : α) (rng : List Nat) :
    (randChoice xs d rng).1 ∈ xs ∨ (randChoice xs d rng).1 = d := by
  unfold randChoice
  exact getD_mem_or xs _ d

theorem randChoices_mem (xs : List α) (d : α) (k : Nat) (rng : List Nat) :
    ∀ y ∈ (randChoices xs d k rng).1, y ∈ xs ∨ y = d := by
  induction k generalizing rng with
  | zero => intro y hy; simp [randChoices] at hy
  | succ k ih =>
    intro y hy
    unfold randChoices at hy
    simp at hy
    rcases hy with h | h
    · subst h; exact randChoice_mem xs d rng
    · exact ih _ _ h

theorem str_data_append (a b : String) : (a ++ b).data = a.data ++ b.data := by
  cases a; cases b; rfl

theorem strAppend_cancel_left {a b c : String} (h : a ++ b = a ++ c) : b = c := by
  have h2 := congrArg String.data h
  rw [str_data_append, str_data_append] at h2
  have h3 := List.append_cancel_left h2
  cases b; cases c; exact congrArg String.mk h3

/-! ## Parse facts about the concrete day and time strings -/

theorem TFB_imp {t : String} (h : TFB t = true) : TF t := by
  unfold TFB at h
  cases hh : hourOfHM? t with
  | none => rw [hh] at h; cases h
  | some v =>
    rw [hh] at h
    simp only [Bool.and_eq_true, decide_eq_true_eq, List.all_eq_true, beq_iff_eq] at h
    exact ⟨v, hh, h.1.1.1, h.1.1.2, h.1.2, fun d hd => h.2 d hd⟩

theorem tf_base : ∀ t ∈ base_time_slots, TF t := by
  have h : base_time_slots.all TFB = true := by decide
  rw [List.all_eq_true] at h
  exact fun t ht => TFB_imp (h t ht)

theorem engineTimeSlots_false : engineTimeSlots false = base_time_slots := rfl

theorem engineTimeSlots_true :
    engineTimeSlots true = ["10:00", "11:00", "12:00", "14:00"] := by decide

theorem engineTimeSlots_subset (b : Bool) : ∀ t ∈ engineTimeSlots b, t ∈ base_time_slots := by
  cases b
  · intro t ht; exact ht
  · intro t ht
    rw [engineTimeSlots_true] at ht
    fin_cases ht <;> decide

theorem tf_engine (b : Bool) : ∀ t ∈ engineTimeSlots b, TF t :=
  fun t ht => tf_base t (engineTimeSlots_subset b t ht)

theorem endParse {d : String} (hd : d ∈ dayOpts) {n : Nat} (hn : n < 24) :
    hourOfDT? (d ++ " " ++ fmt2 (n : Int) ++ ":00") = some (n : Int) := by
  have h : ∀ d ∈ dayOpts, ∀ n : Nat, n < 24 →
      hourOfDT? (d ++ " " ++ fmt2 (n : Int) ++ ":00") = some (n : Int) := by decide
  exact h d hd n hn

theorem fmt2_inj {a b : Nat} (ha : a < 24) (hb : b < 24)
    (h : fmt2 (a : Int) = fmt2 (b : Int)) : a = b := by
  have hh : ∀ a : Nat, a < 24 → ∀ b : Nat, b < 24 →
      fmt2 (a : Int) = fmt2 (b : Int) → a = b := by decide
  exact hh a ha b hb h

theorem base_hour_mem : ∀ t ∈ base_time_slots, ∀ h : Int, hourOfHM? t = some h →
    h ∈ ([10, 11, 12, 14, 15, 16, 17] : List Int) := by
  have hb : base_time_slots.all (hourInB [10, 11, 12, 14, 15, 16, 17]) = true := by decide
  rw [List.all_eq_true] at hb
  intro t ht h hh
  have := hb t ht
  unfold hourInB at this
  rw [hh] at this
  have h2 : ([10, 11, 12, 14, 15, 16, 17] : List Int).elem h = true := this
  exact (List.elem_iff).mp h2

theorem avoid_hour_mem : ∀ t ∈ engineTimeSlots true, ∀ h : Int, hourOfHM? t = some h →
    h ∈ ([10, 11, 12, 14] : List Int) := by
  have hb : (engineTimeSlots true).all (hourInB [10, 11, 12, 14]) = true := by decide
  rw [List.all_eq_true] at hb
  intro t ht h hh
  have := hb t ht
  unfold hourInB at this
  rw [hh] at this
  have h2 : ([10, 11, 12, 14] : List Int).elem h = true := this
  exact (List.elem_iff).mp h2

/-! ## Invariant preservation through the engine loops -/

theorem SlotC_mono {ts u1 u2 f1 f2 : List String} {s : Slot}
    (hu : ∀ x ∈ u1, x ∈ u2) (hf : ∀ x ∈ f1, x ∈ f2)
    (h : SlotC ts u1 f1 s) : SlotC ts u2 f2 s := by
  obtain ⟨t, hh, h1, h2, h3, h4, h5, h6, h7, h8, h9, h10⟩ := h
  exact ⟨t, hh, h1, h2, h3, h4, h5, h6, h7, h8, hu _ h9, hf _ h10⟩

theorem tryTime_inv (ctx : EngCtx) (day time : String) (st : EngSt)
    (htime : time ∈ ctx.time_slots) (hday : day ∈ dayOpts)
    (hTF : ∀ t ∈ ctx.time_slots, TF t) (hI : Inv ctx.time_slots st) :
    Inv ctx.time_slots (tryTime ctx day time st).1 := by
  obtain ⟨h, hhm, h10, h17, hne13, hdt⟩ := hTF time htime
  unfold tryTime
  rw [hhm]
  dsimp only [Option.getD_some]
  split
  · exact hI
  · split
    · exact hI
    · split
      · exact hI
      · split
        · exact hI
        · split
          · exact hI
          · split
            · exact hI
            · -- commit branch
              rename_i hG1 hG2 hG3 hG4 optv room hroom hG6
              simp only [Bool.or_eq_true, Bool.and_eq_true, decide_eq_true_eq,
                not_or, not_and] at hG1
              obtain ⟨hC1a, hC1b⟩ := hG1
              constructor
              · intro s hs
                rcases List.mem_append.mp hs with hold | hnew
                · exact SlotC_mono (fun x hx => List.mem_append_left _ hx)
                    (fun x hx => List.mem_append_left _ hx) (hI.1 s hold)
                · rw [List.mem_singleton] at hnew
                  subst hnew
                  refine ⟨time, h, htime, hhm, hday, rfl, hdt day hday, ?_, ?_, ?_, ?_, ?_⟩
                  · show hourOfDT? (day ++ " " ++ fmt2 ((h + (ctx.tenure : Int)) % 24) ++ ":00") =
                      some (h + (ctx.tenure : Int))
                    have hle : h + (ctx.tenure : Int) ≤ 18 := by omega
                    have hmod : (h + (ctx.tenure : Int)) % 24 = h + (ctx.tenure : Int) :=
                      Int.emod_eq_of_lt (by omega) (by omega)
                    rw [hmod]
                    have hn : ((h + (ctx.tenure : Int)).toNat : Int) = h + (ctx.tenure : Int) :=
                      Int.toNat_of_nonneg (by omega)
                    rw [← hn]
                    exact endParse hday (by omega)
                  · show h + (ctx.tenure : Int) ≤ 18
                    omega
                  · show ¬(h < 13 ∧ 13 < h + (ctx.tenure : Int))
                    rintro ⟨ha, hb⟩
                    exact hC1b (by omega) (by omega)
                  · exact List.mem_append_right _ (List.mem_singleton.mpr rfl)
                  · exact List.mem_append_right _ (List.mem_singleton.mpr rfl)
              · rw [List.pairwise_append]
                refine ⟨hI.2, List.pairwise_singleton _ _, ?_⟩
                intro a ha b hb
                rw [List.mem_singleton] at hb
                subst hb
                obtain ⟨ta, hta, htamem, hhma, hdaya, hsta, _, _, _, _, hkr, hkf⟩ := hI.1 a ha
                constructor
                · rintro ⟨hr, hd2, hst⟩
                  rw [hsta, hd2] at hst
                  have hta_eq : ta = time := strAppend_cancel_left hst
                  rw [hr, hd2, hta_eq] at hkr
                  exact hG6 ((memB_iff _ _).mpr hkr)
                · rintro ⟨hr, hd2, hst⟩
                  rw [hsta, hd2] at hst
                  have hta_eq : ta = time := strAppend_cancel_left hst
                  rw [hr, hd2, hta_eq] at hkf
                  exact hG2 ((memB_iff _ _).mpr hkf)

theorem timeLoop_inv (ctx : EngCtx) (day : String) (times : List String) (st : EngSt)
    (htimes : ∀ t ∈ times, t ∈ ctx.time_slots) (hday : day ∈ dayOpts)
    (hTF : ∀ t ∈ ctx.time_slots, TF t) (hI : Inv ctx.time_slots st) :
    Inv ctx.time_slots (timeLoop ctx day times st) := by
  induction times generalizing st with
  | nil => exact hI
  | cons t rest ih =>
    unfold timeLoop
    have h1 := tryTime_inv ctx day t st (htimes t (List.mem_cons_self t rest)) hday hTF hI
    dsimp only
    split
    · exact h1
    · exact ih _ (fun x hx => htimes x (List.mem_cons_of_mem t hx)) h1

theorem randChoice_filter_days (p : String → Bool) (rng : List Nat) :
    (randChoice (days.filter p) "" rng).1 ∈ dayOpts := by
  rcases randChoice_mem (days.filter p) "" rng with h | h
  · exact List.mem_cons_of_mem _ (List.mem_of_mem_filter h)
  · rw [h]; exact List.mem_cons_self _ _

theorem attemptLoop_inv (ctx : EngCtx) (class_idx : Nat) (fuel : Nat) :
    ∀ (day : String) (st : EngSt), day ∈ dayOpts →
      (∀ t ∈ ctx.time_slots, TF t) → Inv ctx.time_slots st →
      Inv ctx.time_slots (attemptLoop ctx class_idx fuel day st) := by
  induction fuel with
  | zero => intro day st _ _ hI; exact hI
  | succ fuel ih =>
    intro day st hday hTF hI
    unfold attemptLoop
    split
    · exact hI
    · have h1 := timeLoop_inv ctx day
        (randSample ctx.time_slots ctx.time_slots.length st.rng).1
        { st with rng := (randSample ctx.time_slots ctx.time_slots.length st.rng).2 }
        (randSample_subset _ _ _) hday hTF hI
      dsimp only
      split
      · exact h1
      · split
        · exact h1
        · exact ih _ _ (randChoice_filter_days _ _) hTF h1

theorem classLoop_inv (ctx : EngCtx) (sel : List String) (rem : Nat) :
    ∀ (class_idx : Nat) (st : EngSt), (∀ d ∈ sel, d ∈ dayOpts) →
      (∀ t ∈ ctx.time_slots, TF t) → Inv ctx.time_slots st →
      Inv ctx.time_slots (classLoop ctx sel rem class_idx st) := by
  induction rem with
  | zero => intro _ st _ _ hI; exact hI
  | succ rem ih =>
    intro class_idx st hsel hTF hI
    unfold classLoop
    have hday : sel.getD class_idx "" ∈ dayOpts := by
      rcases getD_mem_or sel class_idx "" with h | h
      · exact hsel _ h
      · rw [h]; exact List.mem_cons_self _ _
    have h1 := attemptLoop_inv ctx class_idx ctx.max_attempts
      (sel.getD class_idx "") st hday hTF hI
    dsimp only
    split
    · exact ih _ _ hsel hTF h1
    · exact h1

theorem availableDays_subset (avoid : Bool) (ts : List String) :
    ∀ d ∈ availableDays avoid ts, d ∈ days := by
  intro d hd
  unfold availableDays at hd
  split at hd
  · exact List.mem_of_mem_filter hd
  · exact hd

theorem selectDays_mem (av : List String) (k : Nat) (sid : String) (st : EngSt) :
    ∀ d ∈ (selectDays av k sid st).1, d ∈ av ∨ d = "" := by
  intro d hd
  unfold selectDays at hd
  split at hd
  · dsimp only at hd
    rcases List.mem_append.mp hd with h | h
    · exact Or.inl (randSample_subset _ _ _ d h)
    · exact randChoices_mem _ _ _ _ d h
  · exact Or.inl (randSample_subset _ _ _ d hd)

theorem selectDays_inv {ts : List String} (av : List String) (k : Nat)
    (sid : String) (st : EngSt) (hI : Inv ts st) :
    Inv ts (selectDays av k sid st).2 := by
  unfold selectDays
  split
  · exact hI
  · exact hI

theorem processAssignment_inv (ts : List String) (hist : List HistRow)
    (avoid : Bool) (ma : Nat) (st : EngSt) (a : Assignment)
    (hTF : ∀ t ∈ ts, TF t) (hI : Inv ts st) :
    Inv ts (processAssignment ts hist avoid ma st a) := by
  unfold processAssignment
  have hsel : ∀ d ∈ (selectDays (availableDays avoid ts) a.num_classes a.subject_id
      { st with classes_assigned := 0, failures := [] }).1, d ∈ dayOpts := by
    intro d hd
    rcases selectDays_mem _ _ _ _ d hd with h | h
    · exact List.mem_cons_of_mem _ (availableDays_subset avoid ts d h)
    · rw [h]; exact List.mem_cons_self _ _
  have h2 := classLoop_inv
    ⟨ts, hist, ma, a.faculty_id, a.subject_id, a.tenure, a.num_classes, a.room⟩
    (selectDays (availableDays avoid ts) a.num_classes a.subject_id
      { st with classes_assigned := 0, failures := [] }).1
    a.num_classes 0
    (selectDays (availableDays avoid ts) a.num_classes a.subject_id
      { st with classes_assigned := 0, failures := [] }).2
    hsel hTF (selectDays_inv _ _ _ _ hI)
  dsimp only
  split
  · exact h2
  · exact h2

theorem SlotOut_of_SlotC {ts u f : List String} {s : Slot}
    (h : SlotC ts u f s) : SlotOut ts s := by
  obtain ⟨t, hh, h1, h2, h3, h4, h5, h6, h7, h8, _, _⟩ := h
  exact ⟨t, hh, h1, h2, h5, h6, h7, h8⟩

theorem engineRun_inv (A : List Assignment) (rooms : List String)
    (hist : List HistRow) (avoid : Bool) (ma : Nat) (rng : List Nat) (m : Nat) :
    Inv (engineTimeSlots avoid) (engineRun A rooms hist avoid ma rng m) := by
  unfold engineRun
  have hTF := tf_engine avoid
  have h0 : Inv (engineTimeSlots avoid)
      (⟨[], [], [], initRoomUsage rooms, [], rng,
        engineWarns A rooms (engineTimeSlots avoid) m, [], 0⟩ : EngSt) := by
    constructor
    · intro s hs; cases hs
    · exact List.Pairwise.nil
  generalize (⟨[], [], [], initRoomUsage rooms, [], rng,
      engineWarns A rooms (engineTimeSlots avoid) m, [], 0⟩ : EngSt) = st0 at h0 ⊢
  induction A generalizing st0 with
  | nil => exact h0
  | cons a rest ih =>
    exact ih _ (processAssignment_inv _ hist avoid ma st0 a hTF h0)

theorem engine_master (A : List Assignment) (rooms : List String)
    (hist : List HistRow) (avoid : Bool) (ma : Nat) (rng : List Nat)
    (sched : List Slot) (w : List String)
    (h : auto_assign_timeslots A rooms hist avoid ma rng = .ok (sched, w)) :
    (∀ s ∈ sched, SlotOut (engineTimeSlots avoid) s) ∧
      sched.Pairwise DistinctKeys := by
  unfold auto_assign_timeslots at h
  cases hm : pymax (A.map Assignment.tenure) with
  | error e => rw [hm] at h; cases h
  | ok m =>
    rw [hm] at h
    have h2 := congrArg (fun r => schedOf r) h
    dsimp only [schedOf] at h2
    have hInv := engineRun_inv A rooms hist avoid ma rng m
    rw [← h2]
    exact ⟨fun s hs => SlotOut_of_SlotC (hInv.1 s hs), hInv.2⟩

/-! ## Warnings are only ever appended, so the capacity warning survives -/

theorem tryTime_warns (ctx : EngCtx) (day time : String) (st : EngSt) :
    (tryTime ctx day time st).1.warnings = st.warnings := by
  unfold tryTime
  dsimp only
  split
  · rfl
  split
  · rfl
  split
  · rfl
  split
  · rfl
  split
  · rfl
  split
  · rfl
  rfl

theorem timeLoop_warns (ctx : EngCtx) (day : String) (times : List String) (st : EngSt) :
    (timeLoop ctx day times st).warnings = st.warnings := by
  induction times generalizing st with
  | nil => rfl
  | cons t rest ih =>
    unfold timeLoop
    dsimp only
    split
    · exact tryTime_warns ctx day t st
    · rw [ih]; exact tryTime_warns ctx day t st

theorem attemptLoop_warns (ctx : EngCtx) (class_idx : Nat) (fuel : Nat) :
    ∀ (day : String) (st : EngSt),
      (attemptLoop ctx class_idx fuel day st).warnings = st.warnings := by
  induction fuel with
  | zero => intro day st; rfl
  | succ fuel ih =>
    intro day st
    unfold attemptLoop
    split
    · rfl
    · dsimp only
      split
      · exact timeLoop_warns _ _ _ _
      · split
        · exact timeLoop_warns _ _ _ _
        · rw [ih]; exact timeLoop_warns _ _ _ _

theorem classLoop_warns (ctx : EngCtx) (sel : List String) (rem : Nat) :
    ∀ (class_idx : Nat) (st : EngSt),
      (classLoop ctx sel rem class_idx st).warnings = st.warnings := by
  induction rem with
  | zero => intro _ st; rfl
  | succ rem ih =>
    intro class_idx st
    unfold classLoop
    dsimp only
    split
    · rw [ih]; exact attemptLoop_warns _ _ _ _ _
    · exact attemptLoop_warns _ _ _ _ _

theorem selectDays_warns_mem (av : List String) (k : Nat) (sid : String)
    (st : EngSt) (msg : String) (h : msg ∈ st.warnings) :
    msg ∈ (selectDays av k sid st).2.warnings := by
  unfold selectDays
  split
  · dsimp only
    exact List.mem_append_left _ h
  · exact h

theorem processAssignment_warns_mem (ts : List String) (hist : List HistRow)
    (avoid : Bool) (ma : Nat) (st : EngSt) (a : Assignment) (msg : String)
    (h : msg ∈ st.warnings) :
    msg ∈ (processAssignment ts hist avoid ma st a).warnings := by
  unfold processAssignment
  have h1 := selectDays_warns_mem (availableDays avoid ts) a.num_classes a.subject_id
    { st with classes_assigned := 0, failures := [] } msg h
  have h2 := classLoop_warns
    ⟨ts, hist, ma, a.faculty_id, a.subject_id, a.tenure, a.num_classes, a.room⟩
    (selectDays (availableDays avoid ts) a.num_classes a.subject_id
      { st with classes_assigned := 0, failures := [] }).1
    a.num_classes 0
    (selectDays (availableDays avoid ts) a.num_classes a.subject_id
      { st with classes_assigned := 0, failures := [] }).2
  dsimp only
  split
  · exact List.mem_append_left _ (by rw [h2]; exact h1)
  · rw [h2]; exact h1

theorem foldl_warns_mem (ts : List String) (hist : List HistRow) (avoid : Bool)
    (ma : Nat) (l : List Assignment) :
    ∀ (st0 : EngSt) (msg : String), msg ∈ st0.warnings →
      msg ∈ (l.foldl (processAssignment ts hist avoid ma) st0).warnings := by
  induction l with
  | nil => intro st0 msg h; exact h
  | cons a rest ih =>
    intro st0 msg h
    exact ih _ msg (processAssignment_warns_mem ts hist avoid ma st0 a msg h)

/-! ## Arithmetic facts for the capacity warning -/

theorem le_foldl_max (acc : Nat) (l : List Nat) : acc ≤ l.foldl Nat.max acc := by
  induction l generalizing acc with
  | nil => exact Nat.le_refl acc
  | cons y ys ih => exact Nat.le_trans (Nat.le_max_left acc y) (ih (Nat.max acc y))

theorem mem_le_foldl_max (l : List Nat) (acc : Nat) :
    ∀ x ∈ l, x ≤ l.foldl Nat.max acc := by
  induction l generalizing acc with
  | nil => intro x hx; cases hx
  | cons y ys ih =>
    intro x hx
    rcases List.mem_cons.mp hx with h | h
    · subst h; exact Nat.le_trans (Nat.le_max_right acc x) (le_foldl_max _ ys)
    · exact ih (Nat.max acc y) x h

theorem pymax_bound {l : List Nat} {m : Nat} (h : pymax l = .ok m) :
    ∀ x ∈ l, x ≤ m := by
  cases l with
  | nil => cases h
  | cons y ys =>
    intro x hx
    have hm : m = ys.foldl Nat.max y := by
      unfold pymax at h
      injection h with h2
      exact h2.symm
    subst hm
    rcases List.mem_cons.mp hx with h2 | h2
    · subst h2; exact le_foldl_max x ys
    · exact mem_le_foldl_max ys y x h2

theorem sum_nt_le (A : List Assignment) (m : Nat) (hb : ∀ a ∈ A, a.tenure ≤ m) :
    (A.map (fun a => a.num_classes * a.tenure)).sum ≤
      (A.map Assignment.num_classes).sum * m := by
  induction A with
  | nil => simp
  | cons a rest ih =>
    simp only [List.map_cons, List.sum_cons, Nat.add_mul]
    exact Nat.add_le_add
      (Nat.mul_le_mul_left a.num_classes (hb a (List.mem_cons_self a rest)))
      (ih (fun b hb2 => hb b (List.mem_cons_of_mem a hb2)))

/-! ## Bridges from the pairwise invariant to the executable predicates -/

theorem pairwiseB_of_pairwise {r : α → α → Bool} {R : α → α → Prop}
    (himp : ∀ a b, R a b → r a b = true) :
    ∀ {l : List α}, l.Pairwise R → pairwiseB r l = true := by
  intro l h
  induction l with
  | nil => rfl
  | cons x xs ih =>
    rw [List.pairwise_cons] at h
    unfold pairwiseB
    rw [Bool.and_eq_true, List.all_eq_true]
    exact ⟨fun b hb => himp x b (h.1 b hb), ih h.2⟩

theorem roomExact_of_distinct (a b : Slot) (h : DistinctKeys a b) :
    (!(a.room == b.room && a.day == b.day && a.start_time == b.start_time)) = true := by
  rw [Bool.not_eq_true']
  rw [Bool.eq_false_iff]
  intro hX
  simp only [Bool.and_eq_true, beq_iff_eq] at hX
  exact h.1 ⟨hX.1.1, hX.1.2, hX.2⟩

theorem facExact_of_distinct (a b : Slot) (h : DistinctKeys a b) :
    (!(a.faculty_id == b.faculty_id && a.day == b.day && a.start_time == b.start_time)) = true := by
  rw [Bool.not_eq_true']
  rw [Bool.eq_false_iff]
  intro hX
  simp only [Bool.and_eq_true, beq_iff_eq] at hX
  exact h.2 ⟨hX.1.1, hX.1.2, hX.2⟩

/-! ## Claim C1 -/

/-- C1 counterexample: two 2-hour requests for the same faculty, with the
all-zero randomness oracle, produce an accepted schedule holding slots
`Monday 10:00–12:00` and `Monday 11:00–13:00` for the same faculty — the
claimed faculty-interval-overlap freedom is false for this engine run. -/
theorem c1_counterexample :
    facOverlapFreeB (schedOf (auto_assign_timeslots
      [⟨"F", "S1", 1, 2, none⟩, ⟨"F", "S2", 1, 2, none⟩]
      ["R1", "R2"] [] false 20 [])) = false := by decide

/-- C1 amended: in every schedule accepted from the automatic engine, no two
slots have the same faculty id, the same day, and the same exact start
stamp; interval overlap between multi-hour slots with different start hours
is not prevented within a session. Holds for all request lists, room sets,
histories and random oracles. -/
theorem c1_amended_no_exact_faculty_double_booking (A : List Assignment)
    (rooms : List String) (hist : List HistRow) (avoid : Bool) (ma : Nat)
    (rng : List Nat) (sched : List Slot) (w : List String)
    (h : auto_assign_timeslots A rooms hist avoid ma rng = .ok (sched, w)) :
    facExactFreeB sched = true :=
  pairwiseB_of_pairwise facExact_of_distinct
    (engine_master A rooms hist avoid ma rng sched w h).2

/-- C1 amended witness: a concrete one-slot run through the amended
theorem. -/
theorem c1_amended_witness :
    facExactFreeB [⟨"Monday", "Monday 10:00", "Monday 11:00", "F1", "S1", "RA", 1⟩] = true :=
  c1_amended_no_exact_faculty_double_booking [⟨"F1", "S1", 1, 1, none⟩] ["RA"] []
    false 20 [] [⟨"Monday", "Monday 10:00", "Monday 11:00", "F1", "S1", "RA", 1⟩] []
    (by decide)

/-! ## Claim C2 -/

/-- C2 counterexample: two requests pre-assigned to the same room (a 2-hour
and a 1-hour class), with the all-zero oracle, produce an accepted schedule
in which room `R` holds `Monday 10:00–12:00` and `Monday 11:00–12:00` — the
engine only rejects exact same-hour room keys, not interval overlaps, so the
claimed room-overlap rejection is false. -/
theorem c2_counterexample :
    roomOverlapFreeB (schedOf (auto_assign_timeslots
      [⟨"F1", "S1", 1, 2, some "R"⟩, ⟨"F2", "S2", 1, 1, some "R"⟩]
      ["R"] [] false 20 [])) = false := by decide

/-- C2 amended: during the time search a candidate (day, hour, room) is
rejected when the session already booked the identical room-day-hour key
(`used_slots`); room conflicts against the persisted history are not checked
at all. Consequently no returned schedule contains two slots with the same
room, the same day and the same exact start stamp. -/
theorem c2_amended_no_exact_room_double_booking (A : List Assignment)
    (rooms : List String) (hist : List HistRow) (avoid : Bool) (ma : Nat)
    (rng : List Nat) (sched : List Slot) (w : List String)
    (h : auto_assign_timeslots A rooms hist avoid ma rng = .ok (sched, w)) :
    roomExactFreeB sched = true :=
  pairwiseB_of_pairwise roomExact_of_distinct
    (engine_master A rooms hist avoid ma rng sched w h).2

/-- C2 amended witness: a concrete one-slot run through the amended
theorem. -/
theorem c2_amended_witness :
    roomExactFreeB [⟨"Monday", "Monday 10:00", "Monday 11:00", "F2", "S2", "RB", 1⟩] = true :=
  c2_amended_no_exact_room_double_booking [⟨"F2", "S2", 1, 1, none⟩] ["RB"] []
    false 20 [] [⟨"Monday", "Monday 10:00", "Monday 11:00", "F2", "S2", "RB", 1⟩] []
    (by decide)

/-! ## Claim C3 -/

/-- C3: every slot of a schedule returned by the automatic engine has a
start hour in `TimeSlots = {10,11,12,14,15,16,17}`, an end hour equal to
start hour plus duration and at most 18, and an interval `[start, end)` that
never contains hour 13 — for all request lists, rooms, histories, flags and
random oracles. -/
theorem c3_slot_hours_legal (A : List Assignment) (rooms : List String)
    (hist : List HistRow) (avoid : Bool) (ma : Nat) (rng : List Nat)
    (sched : List Slot) (w : List String)
    (h : auto_assign_timeslots A rooms hist avoid ma rng = .ok (sched, w)) :
    ∀ s ∈ sched, ∃ hr : Int,
      hourOfDT? s.start_time = some hr ∧
      hr ∈ ([10, 11, 12, 14, 15, 16, 17] : List Int) ∧
      hourOfDT? s.end_time = some (hr + (s.tenure : Int)) ∧
      hr + (s.tenure : Int) ≤ 18 ∧
      ¬(hr ≤ 13 ∧ 13 < hr + (s.tenure : Int)) := by
  intro s hs
  obtain ⟨t, hr, htmem, hhm, hdt, hde, hle, hlunch⟩ :=
    (engine_master A rooms hist avoid ma rng sched w h).1 s hs
  have hmem7 := base_hour_mem t (engineTimeSlots_subset avoid t htmem) hr hhm
  refine ⟨hr, hdt, hmem7, hde, hle, ?_⟩
  rintro ⟨ha, hb⟩
  have hne : hr ≠ 13 := by
    intro he
    rw [he] at hmem7
    simp at hmem7
  exact hlunch ⟨by omega, hb⟩

/-- C3 witness: the instantiated conclusion for a concrete one-slot run. -/
theorem c3_witness : ∃ hr : Int,
    hourOfDT? "Monday 10:00" = some hr ∧
    hr ∈ ([10, 11, 12, 14, 15, 16, 17] : List Int) ∧
    hourOfDT? "Monday 11:00" = some (hr + ((1 : Nat) : Int)) ∧
    hr + ((1 : Nat) : Int) ≤ 18 ∧
    ¬(hr ≤ 13 ∧ 13 < hr + ((1 : Nat) : Int)) :=
  c3_slot_hours_legal [⟨"F4", "S4", 1, 1, none⟩] ["RD"] [] false 20 []
    [⟨"Monday", "Monday 10:00", "Monday 11:00", "F4", "S4", "RD", 1⟩] [] (by decide)
    ⟨"Monday", "Monday 10:00", "Monday 11:00", "F4", "S4", "RD", 1⟩
    (List.mem_singleton.mpr rfl)

/-! ## Claim C4 -/

/-- C4: called with an empty request list, `auto_assign_timeslots` does not
return an empty schedule — it raises `ValueError: max() arg is an empty
sequence` from the capacity check (`src/app.py:380`), for every room set,
history, flag and oracle. The engine escalates to an exception instead of
returning a result, contradicting both the zero-request property and the
no-crash rule of the spec. -/
theorem c4_empty_requests_raises (rooms : List String) (hist : List HistRow)
    (avoid : Bool) (ma : Nat) (rng : List Nat) :
    auto_assign_timeslots [] rooms hist avoid ma rng =
      .error "max() arg is an empty sequence" := rfl

/-! ## Claim C5 -/

/-- C5 counterexample: a row from 12:00 to 15:00 on the same day straddles
the lunch hour 13, yet the row validator accepts it — the claimed
ok=false-on-straddle behaviour is false. -/
theorem c5_counterexample :
    (validate_timetable_row ⟨"", "D1", "S1", "Monday 12:00", "Monday 15:00"⟩).1 = true := by
  decide

/-- C5 amended: the row validator does not check lunch straddling at all; a
row with the required fields present, a valid start time, a positive
duration of at most 3 and an end hour of at most 18 is accepted even when
its interval `[12, 15)` contains hour 13. Lunch exclusion happens only
through the absence of 13:00 from the start-time whitelist and the separate
lunch-crossing checks of the assignment paths. -/
theorem c5_amended_validator_accepts_lunch_straddle (tid dep subj : String)
    (hdep : dep ≠ "") (hsubj : subj ≠ "") :
    validate_timetable_row ⟨tid, dep, subj, "Monday 12:00", "Monday 15:00"⟩ = (true, "") := by
  unfold validate_timetable_row
  rw [if_neg]
  · dsimp only
    decide
  · simp only [Bool.or_eq_true, beq_iff_eq]
    push_neg
    exact ⟨⟨⟨hdep, hsubj⟩, by decide⟩, by decide⟩

/-- C5 amended witness: concrete department and subject identifiers through
the amended theorem. -/
theorem c5_amended_witness :
    validate_timetable_row ⟨"", "D9", "S9", "Monday 12:00", "Monday 15:00"⟩ = (true, "") :=
  c5_amended_validator_accepts_lunch_straddle "" "D9" "S9" (by decide) (by decide)

/-! ## Claim C7 -/

/-- C7 counterexample: on the two-slot schedule of the claim the manual
sweep does not produce exactly one gap-violation description — it records
the same violation once per orientation of the pair, so the distinct
description count is two, not the claimed one. -/
theorem c7_counterexample :
    (manual_conflict_sweep
      [⟨"Monday", "Monday 10:00", "Monday 11:00", "F", "S1", "R1", 1⟩,
       ⟨"Monday", "Monday 11:00", "Monday 12:00", "F", "S2", "R2", 1⟩]).map
      (fun r => r.2.2.length) = some 2 := by decide

/-- C7 amended: the manual sweep on the claimed two-slot schedule flags zero
room conflicts, zero faculty conflicts, and exactly two distinct
gap-violation descriptions (one per orientation of the offending pair). -/
theorem c7_amended_two_gap_descriptions :
    manual_conflict_sweep
      [⟨"Monday", "Monday 10:00", "Monday 11:00", "F", "S1", "R1", 1⟩,
       ⟨"Monday", "Monday 11:00", "Monday 12:00", "F", "S2", "R2", 1⟩] =
      some ([], [], ["F on Monday at 10:00 and 11:00", "F on Monday at 11:00 and 10:00"]) ∧
    ("F on Monday at 10:00 and 11:00" : String) ≠ "F on Monday at 11:00 and 10:00" := by
  constructor
  · decide
  · decide

/-! ## Claim C8 -/

/-- C8 counterexample: with `avoidFridayAfternoon` enabled the candidate
start-time list the engine samples from (for every day, Monday included)
contains none of 15:00, 16:00 and 17:00, because the filter condition
`"Friday" in days` is always true — so afternoon starts on Monday–Thursday
do not remain available, falsifying the claim. -/
theorem c8_counterexample :
    (memB "15:00" (engineTimeSlots true) || memB "16:00" (engineTimeSlots true) ||
      memB "17:00" (engineTimeSlots true)) = false := by decide

/-- C8 amended: when `avoidFridayAfternoon` is enabled the engine removes
the start times 15:00–17:00 from the candidate hours of every day, so every
slot of every returned schedule (on any weekday) starts at 10, 11, 12 or
14 o'clock. -/
theorem c8_amended_no_afternoon_any_day (A : List Assignment)
    (rooms : List String) (hist : List HistRow) (ma : Nat) (rng : List Nat)
    (sched : List Slot) (w : List String)
    (h : auto_assign_timeslots A rooms hist true ma rng = .ok (sched, w)) :
    ∀ s ∈ sched, ∃ hr : Int, hourOfDT? s.start_time = some hr ∧
      hr ∈ ([10, 11, 12, 14] : List Int) := by
  intro s hs
  obtain ⟨t, hr, htmem, hhm, hdt, _, _, _⟩ :=
    (engine_master A rooms hist true ma rng sched w h).1 s hs
  exact ⟨hr, hdt, avoid_hour_mem t htmem hr hhm⟩

/-- C8 amended witness: a concrete one-slot avoid-Friday-afternoon run
through the amended theorem. -/
theorem c8_amended_witness : ∃ hr : Int,
    hourOfDT? "Monday 10:00" = some hr ∧ hr ∈ ([10, 11, 12, 14] : List Int) :=
  c8_amended_no_afternoon_any_day [⟨"F5", "S5", 1, 1, none⟩] ["RE"] [] 20 []
    [⟨"Monday", "Monday 10:00", "Monday 11:00", "F5", "S5", "RE", 1⟩] [] (by decide)
    ⟨"Monday", "Monday 10:00", "Monday 11:00", "F5", "S5", "RE", 1⟩
    (List.mem_singleton.mpr rfl)

/-! ## Claim C9 -/

/-- C9: for every non-empty request list whose summed class-hours exceed the
theoretical capacity `5 × 7 × rooms`, the engine emits the capacity warning
(its check `total_classes * max_tenure > days * slots * rooms` fires
whenever the claimed condition holds, since the claimed sum is bounded by
`total_classes * max_tenure` and the engine capacity is at most
`5 * 7 * rooms`). -/
theorem c9_capacity_warning (A : List Assignment) (rooms : List String)
    (hist : List HistRow) (avoid : Bool) (ma : Nat) (rng : List Nat)
    (hne : A ≠ [])
    (hcap : 5 * 7 * rooms.length <
      (A.map (fun a => a.num_classes * a.tenure)).sum) :
    capacityMsg ∈ warnsOf (auto_assign_timeslots A rooms hist avoid ma rng) := by
  cases A with
  | nil => exact absurd rfl hne
  | cons x xs =>
    have hrun : auto_assign_timeslots (x :: xs) rooms hist avoid ma rng =
        .ok ((engineRun (x :: xs) rooms hist avoid ma rng
            ((xs.map Assignment.tenure).foldl Nat.max x.tenure)).schedule,
          (engineRun (x :: xs) rooms hist avoid ma rng
            ((xs.map Assignment.tenure).foldl Nat.max x.tenure)).warnings) := rfl
    rw [hrun]
    show capacityMsg ∈ (engineRun (x :: xs) rooms hist avoid ma rng
      ((xs.map Assignment.tenure).foldl Nat.max x.tenure)).warnings
    have hpm : pymax ((x :: xs).map Assignment.tenure) =
        .ok ((xs.map Assignment.tenure).foldl Nat.max x.tenure) := rfl
    have hb : ∀ a ∈ x :: xs, a.tenure ≤ (xs.map Assignment.tenure).foldl Nat.max x.tenure := by
      intro a ha
      exact pymax_bound hpm a.tenure (List.mem_map.mpr ⟨a, ha, rfl⟩)
    have hsum := sum_nt_le (x :: xs) ((xs.map Assignment.tenure).foldl Nat.max x.tenure) hb
    have hts : days.length * (engineTimeSlots avoid).length ≤ 5 * 7 := by
      cases avoid <;> decide
    have hM : days.length * (engineTimeSlots avoid).length * rooms.length ≤
        5 * 7 * rooms.length := mul_le_mul_right' hts rooms.length
    have hcond : days.length * (engineTimeSlots avoid).length * rooms.length <
        ((x :: xs).map Assignment.num_classes).sum *
          ((xs.map Assignment.tenure).foldl Nat.max x.tenure) :=
      Nat.lt_of_le_of_lt hM (Nat.lt_of_lt_of_le hcap hsum)
    have hwarns : engineWarns (x :: xs) rooms (engineTimeSlots avoid)
        ((xs.map Assignment.tenure).foldl Nat.max x.tenure) = [capacityMsg] := by
      unfold engineWarns
      rw [if_pos hcond]
    unfold engineRun
    apply foldl_warns_mem
    show capacityMsg ∈ engineWarns (x :: xs) rooms (engineTimeSlots avoid)
      ((xs.map Assignment.tenure).foldl Nat.max x.tenure)
    rw [hwarns]
    exact List.mem_singleton.mpr rfl

/-- C9 witness: one request asking for 36 one-hour classes against a single
room exceeds the 35-slot capacity, and the returned warning list contains
the capacity warning. -/
theorem c9_witness :
    capacityMsg ∈ warnsOf (auto_assign_timeslots [⟨"F6", "S6", 36, 1, none⟩]
      ["RF"] [] false 20 []) :=
  c9_capacity_warning [⟨"F6", "S6", 36, 1, none⟩] ["RF"] [] false 20 []
    (by decide) (by decide)

/-! ## Claim C10 -/

/-- C10: in every schedule returned by the automatic engine the
(room, day, start stamp) triples are pairwise distinct and the
(faculty, day, start stamp) triples are pairwise distinct: each committed
room-day-hour and faculty-day-hour key is marked used and later identical
candidates are rejected. -/
theorem c10_exact_keys_distinct (A : List Assignment) (rooms : List String)
    (hist : List HistRow) (avoid : Bool) (ma : Nat) (rng : List Nat)
    (sched : List Slot) (w : List String)
    (h : auto_assign_timeslots A rooms hist avoid ma rng = .ok (sched, w)) :
    roomExactFreeB sched = true ∧ facExactFreeB sched = true := by
  have hm := engine_master A rooms hist avoid ma rng sched w h
  exact ⟨pairwiseB_of_pairwise roomExact_of_distinct hm.2,
    pairwiseB_of_pairwise facExact_of_distinct hm.2⟩

/-- C10 witness: a concrete one-slot run through the theorem. -/
theorem c10_witness :
    roomExactFreeB [⟨"Monday", "Monday 10:00", "Monday 11:00", "F3", "S3", "RC", 1⟩] = true ∧
    facExactFreeB [⟨"Monday", "Monday 10:00", "Monday 11:00", "F3", "S3", "RC", 1⟩] = true :=
  c10_exact_keys_distinct [⟨"F3", "S3", 1, 1, none⟩] ["RC"] [] false 20 []
    [⟨"Monday", "Monday 10:00", "Monday 11:00", "F3", "S3", "RC", 1⟩] [] (by decide)

/-! ## Claim C6: characterization of the gap rule -/

theorem strAppend_cancel_right {a b c : String} (h : a ++ c = b ++ c) : a = b := by
  have h2 := congrArg String.data h
  rw [str_data_append, str_data_append] at h2
  have h3 := List.append_cancel_right h2
  cases a; cases b; exact congrArg String.mk h3

theorem stamp_eq_iff {day : String} {a b : Nat} (ha : a < 24) (hb : b < 24) :
    (day ++ " " ++ fmt2 (a : Int) ++ ":00" = day ++ " " ++ fmt2 (b : Int) ++ ":00") ↔
      a = b := by
  constructor
  · intro h
    exact fmt2_inj ha hb (strAppend_cancel_left (strAppend_cancel_right h))
  · intro h; rw [h]

theorem mem_intRangeGo (n : Nat) :
    ∀ (a hh : Int), hh ∈ intRangeGo a n ↔ a ≤ hh ∧ hh < a + (n : Int) := by
  induction n with
  | zero =>
    intro a hh
    simp [intRangeGo]
  | succ n ih =>
    intro a hh
    simp [intRangeGo, List.mem_cons, ih]
    omega

theorem mem_intRange {a b hh : Int} : hh ∈ intRange a b ↔ a ≤ hh ∧ hh < b := by
  unfold intRange
  rw [mem_intRangeGo]
  omega

theorem gapCodeRejects_cons (s : Slot) (rest : List Slot) (fid day : String) (hci : Int) :
    gapCodeRejects (s :: rest) fid day hci ↔
      (s.faculty_id = fid ∧ s.day = day ∧
        ∃ sh eh : Int, hourOfDT? s.start_time = some sh ∧
          hourOfDT? s.end_time = some eh ∧
          ((hci - 1 ≥ 10 ∧ sh = hci - 1) ∨ (hci + 1 < 17 ∧ sh = hci + 1) ∨
           (eh - sh ≥ 2 ∧ (sh ≤ hci ∧ hci < eh ∨ sh ≤ hci + 1 ∧ hci + 1 < eh)))) ∨
      gapCodeRejects rest fid day hci := by
  unfold gapCodeRejects
  constructor
  · rintro ⟨x, hx, hrest⟩
    rcases List.mem_cons.mp hx with h | h
    · subst h; exact Or.inl hrest
    · exact Or.inr ⟨x, h, hrest⟩
  · rintro (h | ⟨x, hx, hrest⟩)
    · exact ⟨s, List.mem_cons_self s rest, h⟩
    · exact ⟨x, List.mem_cons_of_mem s hx, hrest⟩

theorem gapLoop_false_iff (fid day : String) (hday : day ∈ days) (hc : Nat)
    (hhc : hc < 24) :
    ∀ (sched : List Slot),
      (∀ s ∈ sched, s.faculty_id = fid → s.day = day → WFT day s) →
      (gapLoop fid day
          (if (hc : Int) > 10 then
            some (day ++ " " ++ fmt2 ((hc : Int) - 1) ++ ":00") else none)
          (if (hc : Int) + 1 < 17 then
            some (day ++ " " ++ fmt2 ((hc : Int) + 1) ++ ":00") else none)
          (hc : Int) 1 sched = false
        ↔ gapCodeRejects sched fid day (hc : Int)) := by
  intro sched
  induction sched with
  | nil =>
    intro _
    simp [gapLoop, gapCodeRejects]
  | cons s rest ih =>
    intro hwf
    have hwrest : ∀ s2 ∈ rest, s2.faculty_id = fid → s2.day = day → WFT day s2 :=
      fun s2 h2 => hwf s2 (List.mem_cons_of_mem s h2)
    have ihr := ih hwrest
    unfold gapLoop
    split
    · -- slot matches the candidate's faculty and day
      rename_i hmatch
      rw [Bool.and_eq_true, beq_iff_eq, beq_iff_eq] at hmatch
      obtain ⟨hf, hd⟩ := hmatch
      obtain ⟨sh, eh, hsh, heh, hst, hen⟩ := hwf s (List.mem_cons_self s rest) hf hd
      have hdayOpts : day ∈ dayOpts := List.mem_cons_of_mem _ hday
      have hp1 : hourOfDT? s.start_time = some (sh : Int) := by
        rw [hst]; exact endParse hdayOpts hsh
      have hp2 : hourOfDT? s.end_time = some (eh : Int) := by
        rw [hen]; exact endParse hdayOpts heh
      rw [hp1, hp2]
      dsimp only
      simp only [Nat.cast_one]
      rw [gapCodeRejects_cons]
      have hbr1 : optEq s.start_time
          (if (hc : Int) > 10 then
            some (day ++ " " ++ fmt2 ((hc : Int) - 1) ++ ":00") else none) = true ↔
          ((hc : Int) - 1 ≥ 10 ∧ (sh : Int) = (hc : Int) - 1) := by
        by_cases hgt : (hc : Int) > 10
        · rw [if_pos hgt]
          simp only [optEq, beq_iff_eq, hst]
          have hcast : (hc : Int) - 1 = ((hc - 1 : Nat) : Int) := by omega
          rw [hcast, stamp_eq_iff hsh (by omega)]
          constructor
          · intro he
            constructor
            · omega
            · omega
          · rintro ⟨h1, h2⟩
            omega
        · rw [if_neg hgt]
          simp only [optEq]
          constructor
          · intro h
            exact absurd h Bool.false_ne_true
          · rintro ⟨h1, _⟩
            exact absurd h1 (by omega)
      have hbr2 : optEq s.start_time
          (if (hc : Int) + 1 < 17 then
            some (day ++ " " ++ fmt2 ((hc : Int) + 1) ++ ":00") else none) = true ↔
          ((hc : Int) + 1 < 17 ∧ (sh : Int) = (hc : Int) + 1) := by
        by_cases hlt : (hc : Int) + 1 < 17
        · rw [if_pos hlt]
          simp only [optEq, beq_iff_eq, hst]
          have hcast : (hc : Int) + 1 = ((hc + 1 : Nat) : Int) := by omega
          rw [hcast, stamp_eq_iff hsh (by omega)]
          constructor
          · intro he
            constructor
            · omega
            · omega
          · rintro ⟨h1, h2⟩
            omega
        · rw [if_neg hlt]
          simp only [optEq]
          constructor
          · intro h
            exact absurd h Bool.false_ne_true
          · rintro ⟨h1, _⟩
            exact absurd h1 hlt
      have hbr3 : (decide ((eh : Int) - (sh : Int) > 1) &&
          (intRange (sh : Int) ((sh : Int) + ((eh : Int) - (sh : Int)))).any
            (fun hh => hh == (hc : Int) || hh == (hc : Int) + 1)) = true ↔
          ((eh : Int) - (sh : Int) ≥ 2 ∧
            ((sh : Int) ≤ (hc : Int) ∧ (hc : Int) < (eh : Int) ∨
             (sh : Int) ≤ (hc : Int) + 1 ∧ (hc : Int) + 1 < (eh : Int))) := by
        rw [Bool.and_eq_true, decide_eq_true_eq, List.any_eq_true]
        constructor
        · rintro ⟨hgt, hh, hmem, hor⟩
          rw [mem_intRange] at hmem
          rw [Bool.or_eq_true, beq_iff_eq, beq_iff_eq] at hor
          refine ⟨by omega, ?_⟩
          rcases hor with h | h
          · left; omega
          · right; omega
        · rintro ⟨hge, hcov⟩
          refine ⟨by omega, ?_⟩
          rcases hcov with h | h
          · exact ⟨(hc : Int), mem_intRange.mpr (by omega),
              by rw [Bool.or_eq_true, beq_iff_eq, beq_iff_eq]; left; rfl⟩
          · exact ⟨(hc : Int) + 1, mem_intRange.mpr (by omega),
              by rw [Bool.or_eq_true, beq_iff_eq, beq_iff_eq]; right; rfl⟩
      by_cases b1 : optEq s.start_time
          (if (hc : Int) > 10 then
            some (day ++ " " ++ fmt2 ((hc : Int) - 1) ++ ":00") else none) = true
      · rw [if_pos b1]
        constructor
        · intro _
          exact Or.inl ⟨hf, hd, (sh : Int), (eh : Int), hp1, hp2, Or.inl (hbr1.mp b1)⟩
        · intro _
          rfl
      · rw [if_neg b1]
        by_cases b2 : optEq s.start_time
            (if (hc : Int) + 1 < 17 then
              some (day ++ " " ++ fmt2 ((hc : Int) + 1) ++ ":00") else none) = true
        · rw [if_pos b2]
          constructor
          · intro _
            exact Or.inl ⟨hf, hd, (sh : Int), (eh : Int), hp1, hp2,
              Or.inr (Or.inl (hbr2.mp b2))⟩
          · intro _
            rfl
        · rw [if_neg b2]
          by_cases b3 : (decide ((eh : Int) - (sh : Int) > 1) &&
              (intRange ((sh : Int)) ((sh : Int) + ((eh : Int) - (sh : Int)))).any
                (fun hh => hh == (hc : Int) || hh == (hc : Int) + 1)) = true
          · rw [if_pos b3]
            constructor
            · intro _
              exact Or.inl ⟨hf, hd, (sh : Int), (eh : Int), hp1, hp2,
                Or.inr (Or.inr (hbr3.mp b3))⟩
            · intro _
              rfl
          · rw [if_neg b3]
            constructor
            · intro hr
              exact Or.inr (ihr.mp hr)
            · rintro (hHit | hr)
              · exfalso
                obtain ⟨_, _, sh2, eh2, hp1b, hp2b, hdis⟩ := hHit
                rw [hp1] at hp1b
                injection hp1b with he1
                rw [hp2] at hp2b
                injection hp2b with he2
                subst he1
                subst he2
                rcases hdis with hX | hX | hX
                · exact b1 (hbr1.mpr hX)
                · exact b2 (hbr2.mpr hX)
                · exact b3 (hbr3.mpr hX)
              · exact ihr.mpr hr
    · -- slot does not match: skip it on both sides
      rename_i hmatch
      rw [gapCodeRejects_cons]
      constructor
      · intro hr
        exact Or.inr (ihr.mp hr)
      · rintro (hHit | hr)
        · exfalso
          apply hmatch
          rw [Bool.and_eq_true, beq_iff_eq, beq_iff_eq]
          exact ⟨hHit.1, hHit.2.1⟩
        · exact ihr.mpr hr

/-- C6 amended: the gap check never rejects a candidate of duration ≥ 2
hours, and it rejects a 1-hour candidate at hour `h` on day `d` for faculty
`f` (over well-formed slots) exactly when `f` has a slot on `d` starting at
`h−1` (when `h−1 ≥ 10`) or at `h+1` (when `h+1 < 17`), or a multi-hour slot
on `d` whose occupied hours `[start, end)` contain `h` or `h+1` — coverage,
not the boundary-equality the original claim states. -/
theorem c6_amended_gap_characterization :
    (∀ (sched : List Slot) (fid day stamp : String) (t : Nat), 2 ≤ t →
      check_faculty_gap sched fid day stamp t = true) ∧
    (∀ (sched : List Slot) (fid day : String) (hc : Nat), day ∈ days → hc < 24 →
      (∀ s ∈ sched, s.faculty_id = fid → s.day = day → WFT day s) →
      (check_faculty_gap sched fid day (day ++ " " ++ fmt2 ((hc : Nat) : Int) ++ ":00") 1 = false ↔
        gapCodeRejects sched fid day ((hc : Nat) : Int))) := by
  constructor
  · intro sched fid day stamp t ht
    unfold check_faculty_gap
    rw [if_pos ht]
  · intro sched fid day hc hday hhc hwf
    unfold check_faculty_gap
    rw [if_neg (by omega)]
    have hparse : hourOfDT? (day ++ " " ++ fmt2 ((hc : Nat) : Int) ++ ":00") =
        some ((hc : Nat) : Int) := endParse (List.mem_cons_of_mem _ hday) hhc
    rw [hparse]
    dsimp only
    simp only [Nat.cast_one]
    exact gapLoop_false_iff fid day hday hc hhc sched hwf

/-- C6 counterexample: for the 1-hour candidate at 14:00 against an existing
3-hour block 14:00–17:00 of the same faculty and day, the gap check rejects
(the block covers hour 14), but the rejection condition worded by the claim
— a slot starting at 13:00 or 15:00, or a multi-hour slot whose interval
boundary hours equal 13 or 15 — does not hold, so the claimed
"exactly when" is false. -/
theorem c6_counterexample :
    check_faculty_gap [⟨"Monday", "Monday 14:00", "Monday 17:00", "F", "S", "R", 3⟩]
      "F" "Monday" "Monday 14:00" 1 = false ∧
    gapSpecRejectsB [⟨"Monday", "Monday 14:00", "Monday 17:00", "F", "S", "R", 3⟩]
      "F" "Monday" 14 = false := by decide

/-- C6 amended witness: the exemption instance for a 2-hour candidate, and
the characterization instance at the counterexample schedule. -/
theorem c6_amended_witness :
    check_faculty_gap [] "F" "Monday" "Monday 10:00" 2 = true ∧
    (check_faculty_gap [⟨"Monday", "Monday 14:00", "Monday 17:00", "F", "S", "R", 3⟩]
        "F" "Monday" ("Monday" ++ " " ++ fmt2 (((14 : Nat) : Nat) : Int) ++ ":00") 1 = false ↔
      gapCodeRejects [⟨"Monday", "Monday 14:00", "Monday 17:00", "F", "S", "R", 3⟩]
        "F" "Monday" (((14 : Nat) : Nat) : Int)) :=
  ⟨c6_amended_gap_characterization.1 [] "F" "Monday" "Monday 10:00" 2 (by decide),
   c6_amended_gap_characterization.2
     [⟨"Monday", "Monday 14:00", "Monday 17:00", "F", "S", "R", 3⟩]
     "F" "Monday" 14 (by decide) (by decide)
     (by
       intro s hs _ _
       rw [List.mem_singleton] at hs
       subst hs
       exact ⟨14, 17, by decide, by decide, by decide, by decide⟩)⟩

end TTG
